import Mathlib

set_option linter.unusedSectionVars false

/-!
Verification of the offender (infrator) CSV ingestion and merge pipeline of
`src/routes/infratorRouter.py` (`upload_csv` endpoint).

The embedding models:
* one raw CSV row (`RawRow`), with `Option` cells (a `none` cell is a pandas
  NaN / absent column) and the two date columns already passed through
  `pd.to_datetime(..., errors='coerce')` (a `none` timestamp is a coerce
  failure); timestamps are kept abstract in a linearly compared type `τ`
  (the code only ever compares them with `<`), instantiated at `Int`;
* `get_safe_value` (lines 100-111);
* the in-memory grouping loop over `df_valid.iterrows()` (lines 84-165):
  `gStep`/`groupFrom`/`ingest`;
* the snapshot of existing offenders keyed by `nome_municipio_estado`
  (lines 68-82): `snapLookup` over a document list;
* the reconcile split into inserts and updates (lines 169-191): `reconcile`;
* the batch insert (lines 195-204) and the per-record update loop with its
  single surrounding try/except (lines 206-234): `insertAll`, `applyUpdate`,
  `updateFirstById`, `runUpdates`; storage failures are modelled by the
  `insFail` / `updFail` parameters (`some msg` = the call raises);
* the response dictionary (lines 242-251): `mkResponse`, and the outer
  `try ... except Exception` (lines 21, 253-255) which converts any raised
  `HTTPException` into a 500 response: `uploadCsvEndpoint`.
-/

/-- One raw CSV row. String cells are `none` when the cell is NaN or the
column is absent; `dt_inicio`/`dt_fim` hold the result of
`pd.to_datetime(..., errors='coerce')` on the two date columns. -/
structure RawRow (τ : Type) where
  nome : Option String := none
  municipio : Option String := none
  uf : Option String := none
  infracao_area : Option String := none
  des_local_infracao : Option String := none
  des_infracao : Option String := none
  dt_inicio : Option τ := none
  dt_fim : Option τ := none
deriving Repr, DecidableEq

/-- In-memory accumulator for one offender group
(the dict built at lines 128-138). -/
structure Accum (τ : Type) where
  nome_infrator : String
  infracao_area : String
  municipio : String
  estado : String
  des_local_infracao : String
  historico_infracoes : List String
  dt_inicio_ato_inequivoco : τ
  dt_fim_ato_inequivoco : τ
  total_infracoes : Nat
deriving Repr, DecidableEq

/-- A persisted offender document (the fields written by this pipeline,
plus the store-assigned `_id`). -/
structure OffenderDoc where
  id : Nat
  nome_infrator : String
  infracao_area : String
  municipio : String
  estado : String
  des_local_infracao : String
  historico_infracoes : List String
  dt_inicio_ato_inequivoco : Int
  dt_fim_ato_inequivoco : Int
deriving Repr, DecidableEq

/-- One pending merge-update (the dict built at lines 181-186). -/
structure UpdateData where
  id : Nat
  novas_infracoes : List String
  dt_inicio : Int
  dt_fim : Int
deriving Repr, DecidableEq

/-- Python's `str.lower()`, on the character list (kernel-computable model
of the library call). -/
def pyLower (s : String) : String := String.mk (s.data.map Char.toLower)

/-- Python's `str.strip()`: drop whitespace from both ends
(kernel-computable model of the library call). -/
def pyStrip (s : String) : String :=
  String.mk (((s.data.dropWhile Char.isWhitespace).reverse.dropWhile Char.isWhitespace).reverse)

/-- Python's `str.endswith()`: suffix test, on the character list
(kernel-computable model of the library call). -/
def pyEndsWith (s suf : String) : Bool := suf.data.isSuffixOf s.data

/-- `get_safe_value` (lines 100-111): `none` (NaN / absent column) gives the
default `""`; a string whose lowercase form is `"nan"` gives the default;
otherwise the stripped string is returned. -/
def getSafeValue : Option String → String
  | none => ""
  | some v => if pyLower v = "nan" then "" else pyStrip v

section Grouping

variable {τ : Type} [LT τ] [DecidableRel ((· < ·) : τ → τ → Prop)]

/-- The grouping key `f"{nome_infrator}_{municipio}_{estado}"` (line 123). -/
def rowKey (r : RawRow τ) : String :=
  getSafeValue r.nome ++ "_" ++ getSafeValue r.municipio ++ "_" ++ getSafeValue r.uf

/-- First row seen under a key (lines 128-138). -/
def initAccum (r : RawRow τ) (di df : τ) : Accum τ :=
  let nova := getSafeValue r.des_infracao
  { nome_infrator := getSafeValue r.nome
    infracao_area := getSafeValue r.infracao_area
    municipio := getSafeValue r.municipio
    estado := getSafeValue r.uf
    des_local_infracao := getSafeValue r.des_local_infracao
    historico_infracoes := if nova = "" then [] else [nova]
    dt_inicio_ato_inequivoco := di
    dt_fim_ato_inequivoco := df
    total_infracoes := 1 }

/-- Merging a later row into an existing accumulator (lines 139-154):
append the description if non-blank and not already present, lower the start
if strictly earlier, raise the end if strictly later. -/
def mergeRow (a : Accum τ) (nova : String) (di df : τ) : Accum τ :=
  let a1 := if nova ≠ "" ∧ nova ∉ a.historico_infracoes then
      { a with historico_infracoes := a.historico_infracoes ++ [nova] } else a
  let a2 := if di < a1.dt_inicio_ato_inequivoco then
      { a1 with dt_inicio_ato_inequivoco := di } else a1
  let a3 := if a2.dt_fim_ato_inequivoco < df then
      { a2 with dt_fim_ato_inequivoco := df } else a2
  { a3 with total_infracoes := a3.total_infracoes + 1 }

/-- Python-dict lookup on the insertion-ordered association list of groups. -/
def lookupGroup (gs : List (String × Accum τ)) (k : String) : Option (Accum τ) :=
  (gs.find? (fun kv => kv.1 == k)).map (·.2)

/-- In-place dict write `infratores_agrupados[key] = ...` for a key already
present: the (unique) entry under `key` is mapped, other entries are kept. -/
def updEntry (key : String) (m : Accum τ → Accum τ) (kv : String × Accum τ) :
    String × Accum τ :=
  if kv.1 = key then (kv.1, m kv.2) else kv

/-- Effect of one row of `df_valid` on the groups dict
(lines 90-154, ignoring the error list). A row whose dates did not both
parse is absent from `df_valid`, hence leaves the dict unchanged; a row with
a blank offender name is skipped by the `continue` at line 120. -/
def gStep (gs : List (String × Accum τ)) (r : RawRow τ) : List (String × Accum τ) :=
  match r.dt_inicio, r.dt_fim with
  | some di, some df =>
    if getSafeValue r.nome = "" then gs
    else
      match lookupGroup gs (rowKey r) with
      | none => gs ++ [(rowKey r, initAccum r di df)]
      | some _ =>
        gs.map (updEntry (rowKey r) (fun a => mergeRow a (getSafeValue r.des_infracao) di df))
  | _, _ => gs

/-- Row-level error messages contributed by one row (line 119): only a row
present in `df_valid` (both dates parsed) and with a blank offender name
appends a message; `index` is the 0-based pandas index of the row. -/
def rowError (i : Nat) (r : RawRow τ) : List String :=
  match r.dt_inicio, r.dt_fim with
  | some _, some _ =>
    if getSafeValue r.nome = "" then
      ["Linha " ++ toString (i + 1) ++ ": Nome do infrator está vazio ou ausente"]
    else []
  | _, _ => []

/-- State of the grouping loop: the insertion-ordered groups dict and the
accumulated row-level error list. -/
structure GroupState (τ : Type) where
  groups : List (String × Accum τ)
  erros : List String
deriving Repr, DecidableEq

/-- The grouping loop from row index `i` on (lines 90-165). Iterating all
rows and skipping the ones with an unparseable date is equivalent to the
source's `dropna` + `iterrows`, which keeps original indices. -/
def groupFrom (st : GroupState τ) (i : Nat) : List (RawRow τ) → GroupState τ
  | [] => st
  | r :: rs => groupFrom ⟨gStep st.groups r, st.erros ++ rowError i r⟩ (i + 1) rs

/-- The whole grouping phase of one ingestion run. -/
def ingest (rows : List (RawRow τ)) : GroupState τ := groupFrom ⟨[], []⟩ 0 rows

/-- A row of the table contributes to the group of key `k` iff its two dates
parsed, its offender name is non-blank, and its grouping key is `k`. -/
def contribB (k : String) (r : RawRow τ) : Bool :=
  r.dt_inicio.isSome && r.dt_fim.isSome && !(getSafeValue r.nome == "") && (rowKey r == k)

/-- Per-key view of one grouping step: initialize on the first contributing
row, merge on every later one; rows not in `df_valid` change nothing. -/
def stepAcc (o : Option (Accum τ)) (r : RawRow τ) : Option (Accum τ) :=
  match r.dt_inicio, r.dt_fim with
  | some di, some df =>
    match o with
    | none => some (initAccum r di df)
    | some a => some (mergeRow a (getSafeValue r.des_infracao) di df)
  | _, _ => o

/-- Row-level error messages from row index `i` on. -/
def erroList (i : Nat) : List (RawRow τ) → List String
  | [] => []
  | r :: rs => rowError i r ++ erroList (i + 1) rs

end Grouping

/-- The snapshot key `f"{nome_infrator}_{municipio}_{estado}"` of a stored
document (line 75). -/
def docKey (d : OffenderDoc) : String :=
  d.nome_infrator ++ "_" ++ d.municipio ++ "_" ++ d.estado

/-- The existing-offender snapshot lookup (lines 69-82): the collection is
scanned once in order and each document is written into a dict keyed by
`docKey`, so for duplicate keys the last scanned document wins. -/
def snapLookup (db : List OffenderDoc) (k : String) : Option OffenderDoc :=
  db.foldl (fun acc d => if docKey d = k then some d else acc) none

/-- One step of the reconcile split (lines 170-191): a key present in the
snapshot queues an update only when it contributes net-new history entries;
an absent key queues an insert. -/
def recStep (db : List OffenderDoc) (p : List (Accum Int) × List UpdateData)
    (g : String × Accum Int) : List (Accum Int) × List UpdateData :=
  match snapLookup db g.1 with
  | some ex =>
    let novas := g.2.historico_infracoes.filter
      (fun s => decide (s ∉ ex.historico_infracoes))
    if novas = [] then p
    else (p.1, p.2 ++ [{ id := ex.id, novas_infracoes := novas,
                         dt_inicio := g.2.dt_inicio_ato_inequivoco,
                         dt_fim := g.2.dt_fim_ato_inequivoco }])
  | none => (p.1 ++ [g.2], p.2)

/-- The reconcile phase over the grouped accumulators, in insertion order. -/
def reconcile (db : List OffenderDoc) (gs : List (String × Accum Int)) :
    List (Accum Int) × List UpdateData :=
  gs.foldl (recStep db) ([], [])

/-- An accumulator turned into a stored document (line 190 drops the
auxiliary `total_infrações` field; the store assigns `_id`). -/
def accToDoc (i : Nat) (a : Accum Int) : OffenderDoc :=
  { id := i
    nome_infrator := a.nome_infrator
    infracao_area := a.infracao_area
    municipio := a.municipio
    estado := a.estado
    des_local_infracao := a.des_local_infracao
    historico_infracoes := a.historico_infracoes
    dt_inicio_ato_inequivoco := a.dt_inicio_ato_inequivoco
    dt_fim_ato_inequivoco := a.dt_fim_ato_inequivoco }

/-- Fresh ids for a batch insert, in order. -/
def insertFrom : Nat → List (Accum Int) → List OffenderDoc
  | _, [] => []
  | i, a :: rest => accToDoc i a :: insertFrom (i + 1) rest

/-- A fresh id strictly above every stored id. -/
def nextId (db : List OffenderDoc) : Nat :=
  db.foldl (fun m d => max m d.id) 0 + 1

/-- The batch `insert_many` (line 199): all documents appended at once. -/
def insertAll (db : List OffenderDoc) (ins : List (Accum Int)) : List OffenderDoc :=
  db ++ insertFrom (nextId db) ins

/-- MongoDB `$addToSet` with `$each` (line 212): append, in order, the
entries not already present. -/
def addToSetEach (l : List String) (xs : List String) : List String :=
  xs.foldl (fun acc x => if x ∈ acc then acc else acc ++ [x]) l

/-- One merge-update applied to the matched document (lines 210-228):
set-union the net-new history entries; `$set` the start only if the new one
is strictly earlier than the re-read stored one, the end only if strictly
later. -/
def applyUpdate (d : OffenderDoc) (u : UpdateData) : OffenderDoc :=
  let d1 := { d with historico_infracoes := addToSetEach d.historico_infracoes u.novas_infracoes }
  let d2 := if u.dt_inicio < d.dt_inicio_ato_inequivoco then
      { d1 with dt_inicio_ato_inequivoco := u.dt_inicio } else d1
  if d.dt_fim_ato_inequivoco < u.dt_fim then
      { d2 with dt_fim_ato_inequivoco := u.dt_fim } else d2

/-- `find_one` + `update_one` by `_id`: the first matching document is
updated in place. -/
def updateFirstById : List OffenderDoc → UpdateData → List OffenderDoc
  | [], _ => []
  | d :: rest, u =>
    if d.id = u.id then applyUpdate d u :: rest else d :: updateFirstById rest u

/-- The per-record update loop (lines 208-234). The `try/except` surrounds
the WHOLE `for` loop: the first failing update call appends one batch-level
error message and leaves the loop, so later pending updates are not
attempted. `fails u = some msg` models the storage call for `u` raising. -/
def runUpdates (fails : UpdateData → Option String) :
    List OffenderDoc → List UpdateData → Nat → List String →
    List OffenderDoc × Nat × List String
  | db, [], n, es => (db, n, es)
  | db, u :: rest, n, es =>
    match fails u with
    | some msg => (db, n, es ++ ["Erro nas atualizações: " ++ msg])
    | none => runUpdates fails (updateFirstById db u) rest (n + 1) es

/-- A JSON value of the response dictionary. -/
inductive RVal where
  | s (v : String)
  | n (v : Nat)
  | ls (v : List String)
deriving Repr, DecidableEq

/-- `len(df_valid)`: the rows whose two dates both parsed. -/
def countValid (rows : List (RawRow Int)) : Nat :=
  (rows.filter (fun r => r.dt_inicio.isSome && r.dt_fim.isSome)).length

/-- The response dictionary (lines 242-251). -/
def mkResponse (total valid inseridos atualizados : Nat) (erros : List String) :
    List (String × RVal) :=
  [("message", RVal.s "Upload processado com sucesso"),
   ("total_registros", RVal.n total),
   ("registros_validos", RVal.n valid),
   ("registros_com_datas_invalidas", RVal.n (total - valid)),
   ("infratores_inseridos", RVal.n inseridos),
   ("infratores_atualizados", RVal.n atualizados),
   ("registros_com_erro", RVal.n erros.length),
   ("erros", RVal.ls (erros.take 10))]

/-- The uploaded file: its name, the parsed table's column names, and its
rows. -/
structure UploadedFile where
  filename : String
  columns : List String
  rows : List (RawRow Int)

/-- Required columns (line 42). -/
def requiredColumns : List String :=
  ["NOME_INFRATOR", "DT_INICIO_ATO_INEQUIVOCO", "DT_FIM_ATO_INEQUIVOCO"]

/-- Outcome of the endpoint: an HTTP error response, or a JSON summary;
both carry the state of the offender collection afterwards. -/
inductive UploadOutcome where
  | httpError (status : Nat) (detail : String) (db : List OffenderDoc)
  | success (resp : List (String × RVal)) (db : List OffenderDoc)
deriving Repr, DecidableEq

/-- The collection after the run. -/
def UploadOutcome.dbOut : UploadOutcome → List OffenderDoc
  | .httpError _ _ db => db
  | .success _ db => db

/-- The response dictionary of a successful run (empty on error). -/
def UploadOutcome.respList : UploadOutcome → List (String × RVal)
  | .httpError _ _ _ => []
  | .success r _ => r

/-- The successful path of `upload_csv` after the whole-file checks
(lines 51-251): grouping, reconcile, batch insert, update loop, response.
Returns the response dictionary and the collection afterwards.
`insFail` / `updFail` model raising storage calls (`some msg` = the call
raises with message `msg`). -/
def runPipeline (insFail : Option String) (updFail : UpdateData → Option String)
    (db : List OffenderDoc) (f : UploadedFile) :
    List (String × RVal) × List OffenderDoc :=
  let st : GroupState Int := ingest f.rows
  let iu := reconcile db st.groups
  let afterIns :=
    match iu.1, insFail with
    | [], _ => (db, 0, st.erros)
    | _ :: _, some msg => (db, 0, st.erros ++ ["Erro na inserção em lote: " ++ msg])
    | ins, none => (insertAll db ins, ins.length, st.erros)
  let afterUpd := runUpdates updFail afterIns.1 iu.2 0 afterIns.2.2
  (mkResponse f.rows.length (countValid f.rows) afterIns.2.1 afterUpd.2.1 afterUpd.2.2,
   afterUpd.1)

/-- The body of `upload_csv` inside the outer `try` (lines 21-251):
extension check (line 23), required-column check (lines 42-49), then the
ingestion pipeline. -/
def uploadCsvInner (insFail : Option String) (updFail : UpdateData → Option String)
    (db : List OffenderDoc) (f : UploadedFile) : UploadOutcome :=
  if ¬ pyEndsWith f.filename ".csv" then
    .httpError 400 "Arquivo deve ser um CSV" db
  else if requiredColumns.filter (fun c => decide (c ∉ f.columns)) ≠ [] then
    .httpError 400 ("Colunas obrigatórias não encontradas no CSV: " ++
      toString (requiredColumns.filter (fun c => decide (c ∉ f.columns)))) db
  else
    .success (runPipeline insFail updFail db f).1 (runPipeline insFail updFail db f).2

/-- The endpoint as observed by a client: the outer
`except Exception ... raise HTTPException(500, ...)` (lines 253-255) also
catches the `HTTPException(400)`s raised inside the `try`, so every
whole-file rejection reaches the client as a 500. -/
def uploadCsvEndpoint (insFail : Option String) (updFail : UpdateData → Option String)
    (db : List OffenderDoc) (f : UploadedFile) : UploadOutcome :=
  match uploadCsvInner insFail updFail db f with
  | .httpError s d db1 =>
      .httpError 500 ("Erro ao processar arquivo: " ++ toString s ++ ": " ++ d) db1
  | .success resp db1 => .success resp db1


/-- A timestamp instrumented with the index of the row it came from. The
source compares timestamps only with `<`, so the comparison ignores the tag;
the tag makes the first-writer-wins tie-break observable. -/
structure TS where
  val : Int
  tag : Nat
deriving Repr, DecidableEq

instance : LT TS := ⟨fun a b => a.val < b.val⟩

instance : DecidableRel ((· < ·) : TS → TS → Prop) :=
  fun a b => inferInstanceAs (Decidable (a.val < b.val))

/-- Forget the provenance tags of an accumulator. -/
def projAcc (a : Accum TS) : Accum Int :=
  { nome_infrator := a.nome_infrator
    infracao_area := a.infracao_area
    municipio := a.municipio
    estado := a.estado
    des_local_infracao := a.des_local_infracao
    historico_infracoes := a.historico_infracoes
    dt_inicio_ato_inequivoco := a.dt_inicio_ato_inequivoco.val
    dt_fim_ato_inequivoco := a.dt_fim_ato_inequivoco.val
    total_infracoes := a.total_infracoes }

/-- Forget the provenance tags of a row. -/
def projRow (r : RawRow TS) : RawRow Int :=
  { nome := r.nome
    municipio := r.municipio
    uf := r.uf
    infracao_area := r.infracao_area
    des_local_infracao := r.des_local_infracao
    des_infracao := r.des_infracao
    dt_inicio := r.dt_inicio.map TS.val
    dt_fim := r.dt_fim.map TS.val }

/-- Forget the provenance tags of a grouping state. -/
def projState (st : GroupState TS) : GroupState Int :=
  ⟨st.groups.map (fun kv => (kv.1, projAcc kv.2)), st.erros⟩

/-- Tag both timestamps of a row with its index. -/
def tagRow (i : Nat) (r : RawRow Int) : RawRow TS :=
  { nome := r.nome
    municipio := r.municipio
    uf := r.uf
    infracao_area := r.infracao_area
    des_local_infracao := r.des_local_infracao
    des_infracao := r.des_infracao
    dt_inicio := r.dt_inicio.map (fun v => ⟨v, i⟩)
    dt_fim := r.dt_fim.map (fun v => ⟨v, i⟩) }

/-- Tag a row list with indices from `i` on. -/
def tagRowsFrom : Nat → List (RawRow Int) → List (RawRow TS)
  | _, [] => []
  | i, r :: rs => tagRow i r :: tagRowsFrom (i + 1) rs

/-- Tag a row list with its 0-based indices. -/
def tagRows (rows : List (RawRow Int)) : List (RawRow TS) := tagRowsFrom 0 rows

/-- The fields of a stored document a merge-update may never touch
(everything except history and the two timestamps). -/
def frameProj (d : OffenderDoc) : Nat × String × String × String × String × String :=
  (d.id, d.nome_infrator, d.infracao_area, d.municipio, d.estado, d.des_local_infracao)

/-- A row with no usable data at all: blank offender name and two
unparseable dates. -/
def exRowInvalid : RawRow Int := {}

/-- A row with valid dates but a blank (NaN) offender name. -/
def exRowBlank : RawRow Int := { dt_inicio := some 1, dt_fim := some 2 }

/-- A valid row for offender B in X/S with description d1. -/
def exRowB : RawRow Int :=
  { nome := some "B", municipio := some "X", uf := some "S",
    des_infracao := some "d1", dt_inicio := some 0, dt_fim := some 10 }

/-- A valid row for a new offender C. -/
def exRowC : RawRow Int :=
  { nome := some "C", municipio := some "X", uf := some "S",
    des_infracao := some "d2", dt_inicio := some 1, dt_fim := some 2 }

/-- A valid row for a new offender D. -/
def exRowD : RawRow Int :=
  { nome := some "D", municipio := some "X", uf := some "S",
    des_infracao := some "d3", dt_inicio := some 1, dt_fim := some 2 }

/-- The stored document for offender B (already holds d1). -/
def exDocB : OffenderDoc :=
  { id := 1, nome_infrator := "B", infracao_area := "", municipio := "X",
    estado := "S", des_local_infracao := "", historico_infracoes := ["d1"],
    dt_inicio_ato_inequivoco := 0, dt_fim_ato_inequivoco := 10 }

/-- A one-document collection. -/
def exDb : List OffenderDoc := [exDocB]

/-- A CSV with one invalid-date row, one blank-name row, one no-op row for
the stored offender B and two new offenders. -/
def exFile : UploadedFile :=
  ⟨"f.csv", requiredColumns, [exRowInvalid, exRowBlank, exRowB, exRowC, exRowD]⟩

/-- A CSV whose rows are a subset of what produced `exDb`. -/
def exFileSubset : UploadedFile := ⟨"f.csv", requiredColumns, [exRowB]⟩

/-- An upload whose filename does not end in `.csv`. -/
def exFileTxt : UploadedFile := ⟨"dados.txt", requiredColumns, [exRowB]⟩

/-- A CSV missing all three required columns. -/
def exFileNoCols : UploadedFile := ⟨"f.csv", ["OUTRA"], []⟩

/-- Row 1 of the spec scenario: A/X/SP, caça, 2020-01-01..2020-01-02. -/
def exRowA1 : RawRow Int :=
  { nome := some "A", municipio := some "X", uf := some "SP",
    des_infracao := some "caça", dt_inicio := some 20200101, dt_fim := some 20200102 }

/-- Row 2 of the spec scenario: A/X/SP, pesca, 2019-06-01..2020-03-01. -/
def exRowA2 : RawRow Int :=
  { nome := some "A", municipio := some "X", uf := some "SP",
    des_infracao := some "pesca", dt_inicio := some 20190601, dt_fim := some 20200301 }

/-- The accumulator the grouping phase builds for the spec scenario. -/
def exAccA : Accum Int :=
  { nome_infrator := "A", infracao_area := "", municipio := "X", estado := "SP",
    des_local_infracao := "", historico_infracoes := ["caça", "pesca"],
    dt_inicio_ato_inequivoco := 20190601, dt_fim_ato_inequivoco := 20200301,
    total_infracoes := 2 }

/-- The accumulator built from `[exRowB, exRowB]`. -/
def exAccB2 : Accum Int :=
  { nome_infrator := "B", infracao_area := "", municipio := "X", estado := "S",
    des_local_infracao := "", historico_infracoes := ["d1"],
    dt_inicio_ato_inequivoco := 0, dt_fim_ato_inequivoco := 10,
    total_infracoes := 2 }

/-- A tagged accumulator whose stored timestamps carry tag 0. -/
def exAccTS : Accum TS :=
  { nome_infrator := "A", infracao_area := "", municipio := "X", estado := "SP",
    des_local_infracao := "", historico_infracoes := ["caça"],
    dt_inicio_ato_inequivoco := ⟨5, 0⟩, dt_fim_ato_inequivoco := ⟨9, 0⟩,
    total_infracoes := 1 }

/-- First stored document for the update-loop examples. -/
def exDoc1 : OffenderDoc :=
  { id := 1, nome_infrator := "P", infracao_area := "", municipio := "M",
    estado := "S", des_local_infracao := "", historico_infracoes := ["a"],
    dt_inicio_ato_inequivoco := 0, dt_fim_ato_inequivoco := 1 }

/-- Second stored document for the update-loop examples. -/
def exDoc2 : OffenderDoc :=
  { id := 2, nome_infrator := "Q", infracao_area := "", municipio := "M",
    estado := "S", des_local_infracao := "", historico_infracoes := ["b"],
    dt_inicio_ato_inequivoco := 0, dt_fim_ato_inequivoco := 1 }

/-- A pending merge-update for document 1. -/
def exUpd1 : UpdateData := { id := 1, novas_infracoes := ["x"], dt_inicio := 0, dt_fim := 1 }

/-- A pending merge-update for document 2 carrying a net-new description. -/
def exUpd2 : UpdateData := { id := 2, novas_infracoes := ["y"], dt_inicio := 0, dt_fim := 1 }

/-- A storage fault model: the update call for document 1 raises. -/
def exFails : UpdateData → Option String := fun u => if u.id = 1 then some "boom" else none

section GroupingLemmas

variable {τ : Type} [LT τ] [DecidableRel ((· < ·) : τ → τ → Prop)]

theorem updEntry_fst (key : String) (m : Accum τ → Accum τ) (kv : String × Accum τ) :
    (updEntry key m kv).1 = kv.1 := by
  unfold updEntry
  by_cases h : kv.1 = key <;> simp [h]

theorem find?_map_updEntry (gs : List (String × Accum τ)) (key : String)
    (m : Accum τ → Accum τ) (k : String) :
    (gs.map (updEntry key m)).find? (fun kv => kv.1 == k) =
      (gs.find? (fun kv => kv.1 == k)).map (updEntry key m) := by
  induction gs with
  | nil => rfl
  | cons kv gs ih =>
    simp only [List.map_cons, List.find?_cons, updEntry_fst]
    cases kv.1 == k
    · simpa using ih
    · simp

theorem lookupGroup_map_updEntry (gs : List (String × Accum τ)) (key : String)
    (m : Accum τ → Accum τ) (k : String) :
    lookupGroup (gs.map (updEntry key m)) k =
      if key = k then (lookupGroup gs k).map m else lookupGroup gs k := by
  simp only [lookupGroup, find?_map_updEntry]
  cases hf : gs.find? (fun kv => kv.1 == k) with
  | none => simp
  | some kv =>
    have hkv1 : kv.1 = k := by simpa using List.find?_some hf
    by_cases hkey : key = k
    · subst hkey
      simp [updEntry, hkv1]
    · have hne : ¬ kv.1 = key := by rw [hkv1]; exact fun h => hkey h.symm
      simp [updEntry, hne, hkey]

theorem lookupGroup_append (gs l : List (String × Accum τ)) (k : String) :
    lookupGroup (gs ++ l) k = (lookupGroup gs k).or (lookupGroup l k) := by
  simp only [lookupGroup, List.find?_append]
  cases gs.find? (fun kv => kv.1 == k) <;> simp

theorem lookupGroup_eq_none_iff (gs : List (String × Accum τ)) (k : String) :
    lookupGroup gs k = none ↔ ∀ kv ∈ gs, kv.1 ≠ k := by
  simp [lookupGroup, List.find?_eq_none]

theorem lookup_gStep (gs : List (String × Accum τ)) (r : RawRow τ) (k : String) :
    lookupGroup (gStep gs r) k =
      if contribB k r then stepAcc (lookupGroup gs k) r else lookupGroup gs k := by
  cases hdi : r.dt_inicio with
  | none =>
    have hc : contribB k r = false := by simp [contribB, hdi]
    simp [gStep, stepAcc, hdi, hc]
  | some di =>
    cases hdf : r.dt_fim with
    | none =>
      have hc : contribB k r = false := by simp [contribB, hdi, hdf]
      simp [gStep, stepAcc, hdi, hdf, hc]
    | some df =>
      by_cases hb : getSafeValue r.nome = ""
      · have hc : contribB k r = false := by simp [contribB, hb]
        simp [gStep, hdi, hdf, hb, hc]
      · by_cases hk : rowKey r = k
        · have hc : contribB k r = true := by simp [contribB, hdi, hdf, hb, hk]
          rw [hc]
          subst hk
          simp only [gStep, hdi, hdf, if_neg hb, if_true]
          cases hl : lookupGroup gs (rowKey r) with
          | none =>
            show lookupGroup (gs ++ [(rowKey r, initAccum r di df)]) (rowKey r) = stepAcc none r
            rw [lookupGroup_append, hl]
            simp [lookupGroup, stepAcc, hdi, hdf]
          | some a =>
            show lookupGroup (gs.map (updEntry (rowKey r)
                (fun x => mergeRow x (getSafeValue r.des_infracao) di df))) (rowKey r) =
              stepAcc (some a) r
            rw [lookupGroup_map_updEntry, if_pos rfl, hl]
            simp [stepAcc, hdi, hdf]
        · have hc : contribB k r = false := by simp [contribB, hk]
          rw [hc]
          simp only [gStep, hdi, hdf, if_neg hb, if_false, Bool.false_eq_true]
          cases hl : lookupGroup gs (rowKey r) with
          | none =>
            show lookupGroup (gs ++ [(rowKey r, initAccum r di df)]) k = lookupGroup gs k
            rw [lookupGroup_append]
            have hkb : (rowKey r == k) = false := by simpa using hk
            have hsingle : lookupGroup [(rowKey r, initAccum r di df)] k = none := by
              simp [lookupGroup, List.find?, hkb]
            rw [hsingle]
            cases lookupGroup gs k <;> rfl
          | some a =>
            show lookupGroup (gs.map (updEntry (rowKey r)
                (fun x => mergeRow x (getSafeValue r.des_infracao) di df))) k =
              lookupGroup gs k
            rw [lookupGroup_map_updEntry, if_neg hk]

theorem keys_gStep (gs : List (String × Accum τ)) (r : RawRow τ)
    (hnd : (gs.map Prod.fst).Nodup) : ((gStep gs r).map Prod.fst).Nodup := by
  unfold gStep
  cases hdi : r.dt_inicio with
  | none => exact hnd
  | some di =>
    cases hdf : r.dt_fim with
    | none => exact hnd
    | some df =>
      by_cases hb : getSafeValue r.nome = ""
      · simpa [hb] using hnd
      · simp only [if_neg hb]
        cases hl : lookupGroup gs (rowKey r) with
        | none =>
          have hnin : rowKey r ∉ gs.map Prod.fst := by
            intro hmem
            obtain ⟨kv, hkv, hkey⟩ := List.mem_map.mp hmem
            exact ((lookupGroup_eq_none_iff gs (rowKey r)).mp hl kv hkv) hkey
          simp only [List.map_append, List.map_cons, List.map_nil, List.nodup_append]
          exact ⟨hnd, List.nodup_singleton _, by simpa [List.disjoint_singleton] using hnin⟩
        | some a =>
          have hkeys : ((gs.map (updEntry (rowKey r)
              (fun a => mergeRow a (getSafeValue r.des_infracao) di df))).map Prod.fst) =
              gs.map Prod.fst := by
            rw [List.map_map]
            exact List.map_congr_left (fun kv _ => updEntry_fst _ _ kv)
          simpa [hkeys] using hnd

theorem lookup_foldl_gStep (rs : List (RawRow τ)) :
    ∀ gs : List (String × Accum τ), (gs.map Prod.fst).Nodup → ∀ k : String,
      lookupGroup (rs.foldl gStep gs) k =
        (rs.filter (contribB k)).foldl stepAcc (lookupGroup gs k) := by
  induction rs with
  | nil => intro gs _ k; rfl
  | cons r rs ih =>
    intro gs hnd k
    simp only [List.foldl_cons, List.filter_cons]
    rw [ih _ (keys_gStep gs r hnd)]
    by_cases hc : contribB k r
    · simp [hc, lookup_gStep]
    · simp [hc, lookup_gStep]

theorem groupFrom_groups (rs : List (RawRow τ)) :
    ∀ (st : GroupState τ) (i : Nat),
      (groupFrom st i rs).groups = rs.foldl gStep st.groups := by
  induction rs with
  | nil => intro st i; rfl
  | cons r rs ih => intro st i; simp [groupFrom, ih]

theorem groupFrom_erros (rs : List (RawRow τ)) :
    ∀ (st : GroupState τ) (i : Nat),
      (groupFrom st i rs).erros = st.erros ++ erroList i rs := by
  induction rs with
  | nil => intro st i; simp [groupFrom, erroList]
  | cons r rs ih => intro st i; simp [groupFrom, ih, erroList]

theorem erroList_append (xs ys : List (RawRow τ)) :
    ∀ i : Nat, erroList i (xs ++ ys) = erroList i xs ++ erroList (i + xs.length) ys := by
  induction xs with
  | nil => intro i; simp [erroList]
  | cons x xs ih =>
    intro i
    have hn : i + 1 + xs.length = i + (xs.length + 1) := by omega
    calc erroList i ((x :: xs) ++ ys)
        = rowError i x ++ erroList (i + 1) (xs ++ ys) := rfl
      _ = rowError i x ++ (erroList (i + 1) xs ++ erroList (i + 1 + xs.length) ys) := by
          rw [ih (i + 1)]
      _ = (rowError i x ++ erroList (i + 1) xs) ++ erroList (i + (xs.length + 1)) ys := by
          rw [hn, List.append_assoc]
      _ = erroList i (x :: xs) ++ erroList (i + (x :: xs).length) ys := rfl

theorem ingest_keys_nodup (rows : List (RawRow τ)) :
    (((ingest rows : GroupState τ).groups).map Prod.fst).Nodup := by
  rw [ingest, groupFrom_groups]
  have h : ∀ (rs : List (RawRow τ)) (gs : List (String × Accum τ)),
      (gs.map Prod.fst).Nodup → ((rs.foldl gStep gs).map Prod.fst).Nodup := by
    intro rs
    induction rs with
    | nil => intro gs h; exact h
    | cons r rs ih => intro gs hg; exact ih _ (keys_gStep gs r hg)
  exact h rows [] (by simp)

theorem lookup_ingest (rows : List (RawRow τ)) (k : String) :
    lookupGroup (ingest rows : GroupState τ).groups k =
      (rows.filter (contribB k)).foldl stepAcc none := by
  rw [ingest, groupFrom_groups, lookup_foldl_gStep rows [] (by simp) k]
  rfl

theorem mem_groups_lookup {gs : List (String × Accum τ)} (hnd : (gs.map Prod.fst).Nodup)
    {k : String} {a : Accum τ} (h : (k, a) ∈ gs) : lookupGroup gs k = some a := by
  induction gs with
  | nil => simp at h
  | cons kv gs ih =>
    rcases List.mem_cons.mp h with h1 | h1
    · subst h1
      simp [lookupGroup, List.find?_cons]
    · have hnd2 : (gs.map Prod.fst).Nodup := (List.nodup_cons.mp hnd).2
      have hmem : k ∈ gs.map Prod.fst := List.mem_map.mpr ⟨(k, a), h1, rfl⟩
      have hk : kv.1 ≠ k := by
        intro he
        exact (List.nodup_cons.mp hnd).1 (he ▸ hmem)
      have := ih hnd2 h1
      simpa [lookupGroup, List.find?_cons, hk] using this

end GroupingLemmas

section AccumLemmas

variable {τ : Type} [LT τ] [DecidableRel ((· < ·) : τ → τ → Prop)]

theorem mergeRow_eq (a : Accum τ) (nova : String) (di df : τ) :
    mergeRow a nova di df =
      { nome_infrator := a.nome_infrator
        infracao_area := a.infracao_area
        municipio := a.municipio
        estado := a.estado
        des_local_infracao := a.des_local_infracao
        historico_infracoes :=
          if nova ≠ "" ∧ nova ∉ a.historico_infracoes then
            a.historico_infracoes ++ [nova] else a.historico_infracoes
        dt_inicio_ato_inequivoco :=
          if di < a.dt_inicio_ato_inequivoco then di else a.dt_inicio_ato_inequivoco
        dt_fim_ato_inequivoco :=
          if a.dt_fim_ato_inequivoco < df then df else a.dt_fim_ato_inequivoco
        total_infracoes := a.total_infracoes + 1 } := by
  unfold mergeRow
  by_cases h1 : nova ≠ "" ∧ nova ∉ a.historico_infracoes <;>
    by_cases h2 : di < a.dt_inicio_ato_inequivoco <;>
      by_cases h3 : a.dt_fim_ato_inequivoco < df <;>
        simp [h1, h2, h3]

theorem applyUpdate_eq (d : OffenderDoc) (u : UpdateData) :
    applyUpdate d u =
      { id := d.id
        nome_infrator := d.nome_infrator
        infracao_area := d.infracao_area
        municipio := d.municipio
        estado := d.estado
        des_local_infracao := d.des_local_infracao
        historico_infracoes := addToSetEach d.historico_infracoes u.novas_infracoes
        dt_inicio_ato_inequivoco :=
          if u.dt_inicio < d.dt_inicio_ato_inequivoco then u.dt_inicio
          else d.dt_inicio_ato_inequivoco
        dt_fim_ato_inequivoco :=
          if d.dt_fim_ato_inequivoco < u.dt_fim then u.dt_fim
          else d.dt_fim_ato_inequivoco } := by
  unfold applyUpdate
  by_cases h2 : u.dt_inicio < d.dt_inicio_ato_inequivoco <;>
    by_cases h3 : d.dt_fim_ato_inequivoco < u.dt_fim <;>
      simp [h2, h3]

theorem contribB_true (k : String) (r : RawRow τ) (h : contribB k r = true) :
    (∃ di, r.dt_inicio = some di) ∧ (∃ df, r.dt_fim = some df) ∧
      getSafeValue r.nome ≠ "" ∧ rowKey r = k := by
  simp only [contribB, Bool.and_eq_true, Bool.not_eq_true', beq_eq_false_iff_ne,
    beq_iff_eq, Option.isSome_iff_exists] at h
  exact ⟨h.1.1.1, h.1.1.2, h.1.2, h.2⟩

theorem initAccum_nodup (r : RawRow τ) (di df : τ) :
    (initAccum r di df).historico_infracoes.Nodup := by
  unfold initAccum
  by_cases h : getSafeValue r.des_infracao = "" <;> simp [h]

theorem mergeRow_nodup (a : Accum τ) (nova : String) (di df : τ)
    (h : a.historico_infracoes.Nodup) :
    (mergeRow a nova di df).historico_infracoes.Nodup := by
  rw [mergeRow_eq]
  by_cases h1 : nova ≠ "" ∧ nova ∉ a.historico_infracoes
  · simp only [if_pos h1]
    simp [List.nodup_append, h, List.disjoint_singleton, h1.2]
  · simp [h1, h]

theorem foldAcc_nodup (l : List (RawRow τ)) :
    ∀ o : Option (Accum τ), (∀ a, o = some a → a.historico_infracoes.Nodup) →
      ∀ acc, l.foldl stepAcc o = some acc → acc.historico_infracoes.Nodup := by
  induction l with
  | nil => intro o h acc hacc; exact h acc hacc
  | cons r l ih =>
    intro o h acc hacc
    rw [List.foldl_cons] at hacc
    refine ih (stepAcc o r) ?_ acc hacc
    intro a1 ha1
    unfold stepAcc at ha1
    cases hdi : r.dt_inicio with
    | none =>
      rw [hdi] at ha1
      exact h a1 ha1
    | some di =>
      cases hdf : r.dt_fim with
      | none =>
        rw [hdi, hdf] at ha1
        exact h a1 ha1
      | some df =>
        rw [hdi, hdf] at ha1
        cases o with
        | none =>
          cases ha1
          exact initAccum_nodup r di df
        | some a0 =>
          cases ha1
          exact mergeRow_nodup a0 (getSafeValue r.des_infracao) di df (h a0 rfl)

theorem ingest_historico_nodup (rows : List (RawRow τ)) (k : String) (acc : Accum τ)
    (h : lookupGroup (ingest rows : GroupState τ).groups k = some acc) :
    acc.historico_infracoes.Nodup := by
  rw [lookup_ingest] at h
  exact foldAcc_nodup _ none (by intro a ha; cases ha) acc h

end AccumLemmas

theorem foldAcc_minmax (l : List (RawRow Int)) :
    ∀ a : Accum Int, ∃ acc : Accum Int,
      l.foldl stepAcc (some a) = some acc ∧
      acc.dt_inicio_ato_inequivoco ≤ a.dt_inicio_ato_inequivoco ∧
      (acc.dt_inicio_ato_inequivoco = a.dt_inicio_ato_inequivoco ∨
        ∃ r ∈ l, r.dt_inicio = some acc.dt_inicio_ato_inequivoco) ∧
      (∀ r ∈ l, ∀ v : Int, r.dt_inicio = some v → r.dt_fim.isSome →
        acc.dt_inicio_ato_inequivoco ≤ v) ∧
      a.dt_fim_ato_inequivoco ≤ acc.dt_fim_ato_inequivoco ∧
      (acc.dt_fim_ato_inequivoco = a.dt_fim_ato_inequivoco ∨
        ∃ r ∈ l, r.dt_fim = some acc.dt_fim_ato_inequivoco) ∧
      (∀ r ∈ l, ∀ v : Int, r.dt_fim = some v → r.dt_inicio.isSome →
        v ≤ acc.dt_fim_ato_inequivoco) := by
  induction l with
  | nil =>
    intro a
    exact ⟨a, rfl, le_refl _, Or.inl rfl, by simp, le_refl _, Or.inl rfl, by simp⟩
  | cons r l ih =>
    intro a
    rw [List.foldl_cons]
    cases hdi : r.dt_inicio with
    | none =>
      have hstep : stepAcc (some a) r = some a := by unfold stepAcc; rw [hdi]
      rw [hstep]
      obtain ⟨acc, h0, h1, h2, h3, h4, h5, h6⟩ := ih a
      refine ⟨acc, h0, h1, ?_, ?_, h4, ?_, ?_⟩
      · rcases h2 with h | ⟨r2, hr2, he⟩
        · exact Or.inl h
        · exact Or.inr ⟨r2, List.mem_cons_of_mem r hr2, he⟩
      · intro r2 hr2 v hv _
        rcases List.mem_cons.mp hr2 with h | h
        · subst h; rw [hdi] at hv; cases hv
        · exact h3 r2 h v hv (by assumption)
      · rcases h5 with h | ⟨r2, hr2, he⟩
        · exact Or.inl h
        · exact Or.inr ⟨r2, List.mem_cons_of_mem r hr2, he⟩
      · intro r2 hr2 v hv hsome
        rcases List.mem_cons.mp hr2 with h | h
        · subst h; rw [hdi] at hsome; cases hsome
        · exact h6 r2 h v hv hsome
    | some di =>
      cases hdf : r.dt_fim with
      | none =>
        have hstep : stepAcc (some a) r = some a := by unfold stepAcc; rw [hdi, hdf]
        rw [hstep]
        obtain ⟨acc, h0, h1, h2, h3, h4, h5, h6⟩ := ih a
        refine ⟨acc, h0, h1, ?_, ?_, h4, ?_, ?_⟩
        · rcases h2 with h | ⟨r2, hr2, he⟩
          · exact Or.inl h
          · exact Or.inr ⟨r2, List.mem_cons_of_mem r hr2, he⟩
        · intro r2 hr2 v hv hsome
          rcases List.mem_cons.mp hr2 with h | h
          · subst h; rw [hdf] at hsome; cases hsome
          · exact h3 r2 h v hv hsome
        · rcases h5 with h | ⟨r2, hr2, he⟩
          · exact Or.inl h
          · exact Or.inr ⟨r2, List.mem_cons_of_mem r hr2, he⟩
        · intro r2 hr2 v hv hsome
          rcases List.mem_cons.mp hr2 with h | h
          · subst h; rw [hdf] at hv; cases hv
          · exact h6 r2 h v hv hsome
      | some df =>
        have hstep : stepAcc (some a) r =
            some (mergeRow a (getSafeValue r.des_infracao) di df) := by
          unfold stepAcc; rw [hdi, hdf]
        rw [hstep]
        set a2 := mergeRow a (getSafeValue r.des_infracao) di df with ha2
        have ha2i : a2.dt_inicio_ato_inequivoco =
            if di < a.dt_inicio_ato_inequivoco then di else a.dt_inicio_ato_inequivoco := by
          rw [ha2, mergeRow_eq]
        have ha2f : a2.dt_fim_ato_inequivoco =
            if a.dt_fim_ato_inequivoco < df then df else a.dt_fim_ato_inequivoco := by
          rw [ha2, mergeRow_eq]
        obtain ⟨acc, h0, h1, h2, h3, h4, h5, h6⟩ := ih a2
        refine ⟨acc, h0, ?_, ?_, ?_, ?_, ?_, ?_⟩
        · refine le_trans h1 ?_
          rw [ha2i]
          split_ifs with h <;> omega
        · rcases h2 with h | ⟨r2, hr2, he⟩
          · rw [ha2i] at h
            by_cases hlt : di < a.dt_inicio_ato_inequivoco
            · rw [if_pos hlt] at h
              exact Or.inr ⟨r, List.mem_cons_self r l, by rw [hdi, h]⟩
            · rw [if_neg hlt] at h
              exact Or.inl h
          · exact Or.inr ⟨r2, List.mem_cons_of_mem r hr2, he⟩
        · intro r2 hr2 v hv _
          rcases List.mem_cons.mp hr2 with h | h
          · subst h
            rw [hdi] at hv
            injection hv with hv
            subst hv
            refine le_trans h1 ?_
            rw [ha2i]
            split_ifs with hlt <;> omega
          · exact h3 r2 h v hv (by assumption)
        · refine le_trans ?_ h4
          rw [ha2f]
          split_ifs with h <;> omega
        · rcases h5 with h | ⟨r2, hr2, he⟩
          · rw [ha2f] at h
            by_cases hlt : a.dt_fim_ato_inequivoco < df
            · rw [if_pos hlt] at h
              exact Or.inr ⟨r, List.mem_cons_self r l, by rw [hdf, h]⟩
            · rw [if_neg hlt] at h
              exact Or.inl h
          · exact Or.inr ⟨r2, List.mem_cons_of_mem r hr2, he⟩
        · intro r2 hr2 v hv hsome
          rcases List.mem_cons.mp hr2 with h | h
          · subst h
            rw [hdf] at hv
            injection hv with hv
            subst hv
            refine le_trans ?_ h4
            rw [ha2f]
            split_ifs with hlt <;> omega
          · exact h6 r2 h v hv hsome

theorem lookup_ingest_minmax (rows : List (RawRow Int)) (k : String) (acc : Accum Int)
    (h : lookupGroup (ingest rows : GroupState Int).groups k = some acc) :
    (∀ r ∈ rows, contribB k r = true → ∀ v : Int, r.dt_inicio = some v →
        acc.dt_inicio_ato_inequivoco ≤ v) ∧
    (∃ r, r ∈ rows ∧ contribB k r = true ∧
        r.dt_inicio = some acc.dt_inicio_ato_inequivoco) ∧
    (∀ r ∈ rows, contribB k r = true → ∀ v : Int, r.dt_fim = some v →
        v ≤ acc.dt_fim_ato_inequivoco) ∧
    (∃ r, r ∈ rows ∧ contribB k r = true ∧
        r.dt_fim = some acc.dt_fim_ato_inequivoco) := by
  rw [lookup_ingest] at h
  cases hl : rows.filter (contribB k) with
  | nil => rw [hl] at h; cases h
  | cons r0 l =>
    rw [hl, List.foldl_cons] at h
    have hr0f : r0 ∈ rows.filter (contribB k) := by rw [hl]; exact List.mem_cons_self r0 l
    have hr0 : r0 ∈ rows ∧ contribB k r0 = true := List.mem_filter.mp hr0f
    obtain ⟨⟨di, hdi⟩, ⟨df, hdf⟩, _, _⟩ := contribB_true k r0 hr0.2
    have hstep : stepAcc none r0 = some (initAccum r0 di df) := by
      unfold stepAcc; rw [hdi, hdf]
    rw [hstep] at h
    obtain ⟨acc2, h0, h1, h2, h3, h4, h5, h6⟩ := foldAcc_minmax l (initAccum r0 di df)
    rw [h0] at h
    injection h with h
    subst h
    have hii : (initAccum r0 di df).dt_inicio_ato_inequivoco = di := rfl
    have hif : (initAccum r0 di df).dt_fim_ato_inequivoco = df := rfl
    have hmeml : ∀ r2 ∈ l, r2 ∈ rows ∧ contribB k r2 = true := by
      intro r2 hr2
      have : r2 ∈ rows.filter (contribB k) := by
        rw [hl]; exact List.mem_cons_of_mem r0 hr2
      exact List.mem_filter.mp this
    refine ⟨?_, ?_, ?_, ?_⟩
    · intro r2 hr2 hc v hv
      have hrf : r2 ∈ rows.filter (contribB k) := List.mem_filter.mpr ⟨hr2, hc⟩
      rw [hl] at hrf
      rcases List.mem_cons.mp hrf with he | he
      · subst he
        rw [hdi] at hv
        injection hv with hv
        subst hv
        rw [hii] at h1
        exact h1
      · obtain ⟨_, ⟨df2, hdf2⟩, _, _⟩ := contribB_true k r2 hc
        exact h3 r2 he v hv (by rw [hdf2]; rfl)
    · rcases h2 with he | ⟨r2, hr2, he⟩
      · rw [hii] at he
        exact ⟨r0, hr0.1, hr0.2, by rw [hdi, he]⟩
      · exact ⟨r2, (hmeml r2 hr2).1, (hmeml r2 hr2).2, he⟩
    · intro r2 hr2 hc v hv
      have hrf : r2 ∈ rows.filter (contribB k) := List.mem_filter.mpr ⟨hr2, hc⟩
      rw [hl] at hrf
      rcases List.mem_cons.mp hrf with he | he
      · subst he
        rw [hdf] at hv
        injection hv with hv
        subst hv
        rw [hif] at h4
        exact h4
      · obtain ⟨⟨di2, hdi2⟩, _, _, _⟩ := contribB_true k r2 hc
        exact h6 r2 he v hv (by rw [hdi2]; rfl)
    · rcases h5 with he | ⟨r2, hr2, he⟩
      · rw [hif] at he
        exact ⟨r0, hr0.1, hr0.2, by rw [hdf, he]⟩
      · exact ⟨r2, (hmeml r2 hr2).1, (hmeml r2 hr2).2, he⟩

section PersistenceLemmas

theorem recStep_fst (db : List OffenderDoc) (p : List (Accum Int) × List UpdateData)
    (g : String × Accum Int) :
    (recStep db p g).1 = p.1 ∨ (recStep db p g).1 = p.1 ++ [g.2] := by
  unfold recStep
  split
  · dsimp only
    split
    · exact Or.inl rfl
    · exact Or.inl rfl
  · exact Or.inr rfl

theorem reconcile_noop (db : List OffenderDoc) (gs : List (String × Accum Int))
    (h : ∀ p ∈ gs, ∃ ex, snapLookup db p.1 = some ex ∧
        ∀ s ∈ p.2.historico_infracoes, s ∈ ex.historico_infracoes) :
    reconcile db gs = ([], []) := by
  have hgen : ∀ gs2 : List (String × Accum Int),
      (∀ p ∈ gs2, ∃ ex, snapLookup db p.1 = some ex ∧
        ∀ s ∈ p.2.historico_infracoes, s ∈ ex.historico_infracoes) →
      ∀ p0, gs2.foldl (recStep db) p0 = p0 := by
    intro gs2
    induction gs2 with
    | nil => intro _ p0; rfl
    | cons g gs2 ih =>
      intro hh p0
      rw [List.foldl_cons]
      obtain ⟨ex, hex, hsub⟩ := hh g (List.mem_cons_self g gs2)
      have hfil : g.2.historico_infracoes.filter
          (fun s => decide (s ∉ ex.historico_infracoes)) = [] := by
        rw [List.filter_eq_nil_iff]
        intro a ha
        simp [hsub a ha]
      have hstep : recStep db p0 g = p0 := by
        unfold recStep
        rw [hex]
        dsimp only
        rw [if_pos hfil]
      rw [hstep]
      exact ih (fun p hp => hh p (List.mem_cons_of_mem g hp)) p0
  exact hgen gs h ([], [])

theorem reconcile_inserts_mem (db : List OffenderDoc) (gs : List (String × Accum Int)) :
    ∀ p0 a, a ∈ (gs.foldl (recStep db) p0).1 → a ∈ p0.1 ∨ ∃ k, (k, a) ∈ gs := by
  induction gs with
  | nil => intro p0 a ha; exact Or.inl ha
  | cons g gs ih =>
    intro p0 a ha
    rw [List.foldl_cons] at ha
    rcases ih (recStep db p0 g) a ha with h | ⟨k, hk⟩
    · rcases recStep_fst db p0 g with he | he
      · rw [he] at h
        exact Or.inl h
      · rw [he] at h
        rcases List.mem_append.mp h with h1 | h1
        · exact Or.inl h1
        · have h2 := List.mem_singleton.mp h1
          exact Or.inr ⟨g.1, by rw [h2]; exact List.mem_cons_self g gs⟩
    · exact Or.inr ⟨k, List.mem_cons_of_mem g hk⟩

theorem insertFrom_historico (ins : List (Accum Int)) :
    ∀ i d, d ∈ insertFrom i ins →
      ∃ a ∈ ins, d.historico_infracoes = a.historico_infracoes := by
  induction ins with
  | nil => intro i d hd; cases hd
  | cons a ins ih =>
    intro i d hd
    rcases List.mem_cons.mp hd with h | h
    · exact ⟨a, List.mem_cons_self a ins, by rw [h]; rfl⟩
    · obtain ⟨a2, ha2, he⟩ := ih (i + 1) d h
      exact ⟨a2, List.mem_cons_of_mem a ha2, he⟩

theorem addToSetEach_nodup (xs : List String) :
    ∀ l : List String, l.Nodup → (addToSetEach l xs).Nodup := by
  induction xs with
  | nil => intro l h; exact h
  | cons x xs ih =>
    intro l h
    unfold addToSetEach
    rw [List.foldl_cons]
    by_cases hx : x ∈ l
    · rw [if_pos hx]
      exact ih l h
    · rw [if_neg hx]
      refine ih (l ++ [x]) ?_
      rw [List.nodup_append]
      exact ⟨h, List.nodup_singleton x, by simpa [List.disjoint_singleton] using hx⟩

theorem updateFirstById_mem (u : UpdateData) :
    ∀ db : List OffenderDoc, ∀ d2 ∈ updateFirstById db u,
      d2 ∈ db ∨ ∃ d ∈ db, d2 = applyUpdate d u := by
  intro db
  induction db with
  | nil => intro d2 hd2; cases hd2
  | cons d db ih =>
    intro d2 hd2
    unfold updateFirstById at hd2
    by_cases hid : d.id = u.id
    · rw [if_pos hid] at hd2
      rcases List.mem_cons.mp hd2 with h | h
      · exact Or.inr ⟨d, List.mem_cons_self d db, h⟩
      · exact Or.inl (List.mem_cons_of_mem d h)
    · rw [if_neg hid] at hd2
      rcases List.mem_cons.mp hd2 with h | h
      · exact Or.inl (by rw [h]; exact List.mem_cons_self d db)
      · rcases ih d2 h with h1 | ⟨d3, hd3, he⟩
        · exact Or.inl (List.mem_cons_of_mem d h1)
        · exact Or.inr ⟨d3, List.mem_cons_of_mem d hd3, he⟩

theorem runUpdates_nodup (fails : UpdateData → Option String) (us : List UpdateData) :
    ∀ (db : List OffenderDoc) (n : Nat) (es : List String),
      (∀ d ∈ db, d.historico_infracoes.Nodup) →
      ∀ d2 ∈ (runUpdates fails db us n es).1, d2.historico_infracoes.Nodup := by
  induction us with
  | nil => intro db n es hdb d2 hd2; exact hdb d2 hd2
  | cons u us ih =>
    intro db n es hdb d2 hd2
    unfold runUpdates at hd2
    cases hf : fails u with
    | some msg =>
      rw [hf] at hd2
      exact hdb d2 hd2
    | none =>
      rw [hf] at hd2
      refine ih (updateFirstById db u) (n + 1) es ?_ d2 hd2
      intro d3 hd3
      rcases updateFirstById_mem u db d3 hd3 with h | ⟨d4, hd4, he⟩
      · exact hdb d3 h
      · rw [he, applyUpdate_eq]
        exact addToSetEach_nodup u.novas_infracoes d4.historico_infracoes (hdb d4 hd4)

end PersistenceLemmas

section PipelineLemmas

theorem runPipeline_resp (insFail : Option String) (updFail : UpdateData → Option String)
    (db : List OffenderDoc) (f : UploadedFile) :
    ∃ inseridos atualizados erros2, (runPipeline insFail updFail db f).1 =
      mkResponse f.rows.length (countValid f.rows) inseridos atualizados erros2 :=
  ⟨_, _, _, rfl⟩

theorem runPipeline_noop (insFail : Option String) (updFail : UpdateData → Option String)
    (db : List OffenderDoc) (f : UploadedFile)
    (h : reconcile db (ingest f.rows : GroupState Int).groups = ([], [])) :
    runPipeline insFail updFail db f =
      (mkResponse f.rows.length (countValid f.rows) 0 0
        (ingest f.rows : GroupState Int).erros, db) := by
  simp only [runPipeline]
  rw [h]
  simp [runUpdates]

theorem runPipeline_nodup (insFail : Option String) (updFail : UpdateData → Option String)
    (db : List OffenderDoc) (f : UploadedFile)
    (hdb : ∀ d ∈ db, d.historico_infracoes.Nodup) :
    ∀ d ∈ (runPipeline insFail updFail db f).2, d.historico_infracoes.Nodup := by
  have hins : ∀ a ∈ (reconcile db (ingest f.rows : GroupState Int).groups).1,
      a.historico_infracoes.Nodup := by
    intro a ha
    unfold reconcile at ha
    rcases reconcile_inserts_mem db _ ([], []) a ha with h | ⟨k, hk⟩
    · cases h
    · exact ingest_historico_nodup f.rows k a
        (mem_groups_lookup (ingest_keys_nodup f.rows) hk)
  intro d hd
  simp only [runPipeline] at hd
  rcases hiu : reconcile db (ingest f.rows : GroupState Int).groups with ⟨ins, upds⟩
  rw [hiu] at hd hins
  dsimp only at hd hins
  cases ins with
  | nil =>
    cases insFail with
    | none =>
      dsimp only at hd
      exact runUpdates_nodup updFail upds db 0 _ hdb d hd
    | some msg =>
      dsimp only at hd
      exact runUpdates_nodup updFail upds db 0 _ hdb d hd
  | cons a ins2 =>
    cases insFail with
    | some msg =>
      dsimp only at hd
      exact runUpdates_nodup updFail upds db 0 _ hdb d hd
    | none =>
      dsimp only at hd
      refine runUpdates_nodup updFail upds (insertAll db (a :: ins2)) 0 _ ?_ d hd
      intro d2 hd2
      unfold insertAll at hd2
      rcases List.mem_append.mp hd2 with h | h
      · exact hdb d2 h
      · obtain ⟨a2, ha2, he⟩ := insertFrom_historico (a :: ins2) _ d2 h
        rw [he]
        exact hins a2 ha2

theorem uploadCsvInner_success_of (insFail : Option String)
    (updFail : UpdateData → Option String) (db : List OffenderDoc) (f : UploadedFile)
    (hname : pyEndsWith f.filename ".csv" = true)
    (hcols : requiredColumns.filter (fun c => decide (c ∉ f.columns)) = []) :
    uploadCsvInner insFail updFail db f =
      .success (runPipeline insFail updFail db f).1 (runPipeline insFail updFail db f).2 := by
  unfold uploadCsvInner
  rw [if_neg (fun hn => hn hname), if_neg (fun hne => hne hcols)]

theorem uploadCsvInner_success_inv (insFail : Option String)
    (updFail : UpdateData → Option String) (db : List OffenderDoc) (f : UploadedFile)
    (resp : List (String × RVal)) (db2 : List OffenderDoc)
    (h : uploadCsvInner insFail updFail db f = .success resp db2) :
    resp = (runPipeline insFail updFail db f).1 ∧
      db2 = (runPipeline insFail updFail db f).2 := by
  unfold uploadCsvInner at h
  split at h
  · cases h
  · split at h
    · cases h
    · injection h with h1 h2
      exact ⟨h1.symm, h2.symm⟩

theorem uploadCsvEndpoint_success_inv (insFail : Option String)
    (updFail : UpdateData → Option String) (db : List OffenderDoc) (f : UploadedFile)
    (resp : List (String × RVal)) (db2 : List OffenderDoc)
    (h : uploadCsvEndpoint insFail updFail db f = .success resp db2) :
    uploadCsvInner insFail updFail db f = .success resp db2 := by
  unfold uploadCsvEndpoint at h
  split at h
  · cases h
  · rename_i heq
    rw [heq]
    exact h

end PipelineLemmas

section ProjLemmas

theorem TS_lt_iff (a b : TS) : a < b ↔ a.val < b.val := Iff.rfl

theorem map_val_tag (i : Nat) (o : Option Int) :
    (o.map (fun v => (⟨v, i⟩ : TS))).map TS.val = o := by
  cases o <;> rfl

theorem projRow_tagRow (i : Nat) (r : RawRow Int) : projRow (tagRow i r) = r := by
  cases r
  simp only [projRow, tagRow, map_val_tag]

theorem rowError_tagRow (i j : Nat) (r : RawRow Int) :
    rowError i (tagRow j r) = rowError i r := by
  cases hdi : r.dt_inicio <;> cases hdf : r.dt_fim <;>
    simp [rowError, tagRow, hdi, hdf]

theorem initAccum_proj (r : RawRow TS) (di df : TS) :
    projAcc (initAccum r di df) = initAccum (projRow r) di.val df.val := rfl

theorem mergeRow_proj (a : Accum TS) (nova : String) (di df : TS) :
    projAcc (mergeRow a nova di df) = mergeRow (projAcc a) nova di.val df.val := by
  rw [mergeRow_eq, mergeRow_eq]
  simp only [projAcc, TS_lt_iff, apply_ite TS.val]

theorem find?_map_keyed2 {α β : Type} (gs : List (String × α)) (f : String × α → String × β)
    (k : String) (hf : ∀ kv, (f kv).1 = kv.1) :
    (gs.map f).find? (fun kv => kv.1 == k) = (gs.find? (fun kv => kv.1 == k)).map f := by
  induction gs with
  | nil => rfl
  | cons kv gs ih =>
    simp only [List.map_cons, List.find?_cons, hf kv]
    cases kv.1 == k
    · simpa using ih
    · simp

theorem lookupGroup_proj (gs : List (String × Accum TS)) (k : String) :
    lookupGroup (gs.map (fun kv => (kv.1, projAcc kv.2))) k =
      (lookupGroup gs k).map projAcc := by
  rw [lookupGroup, lookupGroup,
    find?_map_keyed2 gs (fun kv => (kv.1, projAcc kv.2)) k (fun kv => rfl)]
  cases gs.find? (fun kv => kv.1 == k) <;> rfl

end ProjLemmas

section GStepEqLemmas

variable {τ : Type} [LT τ] [DecidableRel ((· < ·) : τ → τ → Prop)]

theorem gStep_eq_append (gs : List (String × Accum τ)) (r : RawRow τ) (di df : τ)
    (hdi : r.dt_inicio = some di) (hdf : r.dt_fim = some df)
    (hb : ¬ getSafeValue r.nome = "") (hl : lookupGroup gs (rowKey r) = none) :
    gStep gs r = gs ++ [(rowKey r, initAccum r di df)] := by
  unfold gStep
  rw [hdi, hdf]
  dsimp only
  rw [if_neg hb, hl]

theorem gStep_eq_map (gs : List (String × Accum τ)) (r : RawRow τ) (di df : τ)
    (hdi : r.dt_inicio = some di) (hdf : r.dt_fim = some df)
    (hb : ¬ getSafeValue r.nome = "") (a : Accum τ)
    (hl : lookupGroup gs (rowKey r) = some a) :
    gStep gs r =
      gs.map (updEntry (rowKey r)
        (fun x => mergeRow x (getSafeValue r.des_infracao) di df)) := by
  unfold gStep
  rw [hdi, hdf]
  dsimp only
  rw [if_neg hb, hl]

end GStepEqLemmas

section ProjFoldLemmas

theorem gStep_proj (gs : List (String × Accum TS)) (r : RawRow TS) :
    (gStep gs r).map (fun kv => (kv.1, projAcc kv.2)) =
      gStep (gs.map (fun kv => (kv.1, projAcc kv.2))) (projRow r) := by
  cases hdi : r.dt_inicio with
  | none =>
    have hdi2 : (projRow r).dt_inicio = none := by
      show r.dt_inicio.map TS.val = none
      rw [hdi]; rfl
    simp [gStep, hdi, hdi2]
  | some di =>
    cases hdf : r.dt_fim with
    | none =>
      have hdi2 : (projRow r).dt_inicio = some di.val := by
        show r.dt_inicio.map TS.val = some di.val
        rw [hdi]; rfl
      have hdf2 : (projRow r).dt_fim = none := by
        show r.dt_fim.map TS.val = none
        rw [hdf]; rfl
      simp [gStep, hdi, hdf, hdi2, hdf2]
    | some df =>
      have hdi2 : (projRow r).dt_inicio = some di.val := by
        show r.dt_inicio.map TS.val = some di.val
        rw [hdi]; rfl
      have hdf2 : (projRow r).dt_fim = some df.val := by
        show r.dt_fim.map TS.val = some df.val
        rw [hdf]; rfl
      have hnome : getSafeValue (projRow r).nome = getSafeValue r.nome := rfl
      have hkey : rowKey (projRow r) = rowKey r := rfl
      have hdes : getSafeValue (projRow r).des_infracao = getSafeValue r.des_infracao := rfl
      by_cases hb : getSafeValue r.nome = ""
      · have hstepL : gStep gs r = gs := by
          unfold gStep
          rw [hdi, hdf]
          dsimp only
          rw [if_pos hb]
        have hstepR :
            gStep (gs.map (fun kv => (kv.1, projAcc kv.2))) (projRow r) =
              gs.map (fun kv => (kv.1, projAcc kv.2)) := by
          unfold gStep
          rw [hdi2, hdf2]
          dsimp only
          rw [if_pos (hnome.trans hb)]
        rw [hstepL, hstepR]
      · have hb2 : ¬ getSafeValue (projRow r).nome = "" := by rw [hnome]; exact hb
        cases hl : lookupGroup gs (rowKey r) with
        | none =>
          have hl2 : lookupGroup (gs.map (fun kv => (kv.1, projAcc kv.2)))
              (rowKey (projRow r)) = none := by
            rw [hkey, lookupGroup_proj, hl]; rfl
          rw [gStep_eq_append gs r di df hdi hdf hb hl,
            gStep_eq_append (gs.map (fun kv => (kv.1, projAcc kv.2))) (projRow r)
              di.val df.val hdi2 hdf2 hb2 hl2]
          rw [List.map_append]
          simp [hkey, initAccum_proj]
        | some a =>
          have hl2 : lookupGroup (gs.map (fun kv => (kv.1, projAcc kv.2)))
              (rowKey (projRow r)) = some (projAcc a) := by
            rw [hkey, lookupGroup_proj, hl]; rfl
          rw [gStep_eq_map gs r di df hdi hdf hb a hl,
            gStep_eq_map (gs.map (fun kv => (kv.1, projAcc kv.2))) (projRow r)
              di.val df.val hdi2 hdf2 hb2 (projAcc a) hl2]
          rw [List.map_map, List.map_map]
          refine List.map_congr_left ?_
          intro kv _
          show (fun kv => (kv.1, projAcc kv.2))
              (updEntry (rowKey r) (fun x => mergeRow x (getSafeValue r.des_infracao) di df) kv) =
            updEntry (rowKey (projRow r))
              (fun x => mergeRow x (getSafeValue (projRow r).des_infracao) di.val df.val)
              ((fun kv => (kv.1, projAcc kv.2)) kv)
          rw [hkey, hdes]
          unfold updEntry
          by_cases hk : kv.1 = rowKey r
          · simp [hk, mergeRow_proj]
          · simp [hk]

theorem groupFrom_proj (rs : List (RawRow Int)) :
    ∀ (st : GroupState TS) (i j : Nat),
      projState (groupFrom st i (tagRowsFrom j rs)) = groupFrom (projState st) i rs := by
  induction rs with
  | nil => intro st i j; rfl
  | cons r rs ih =>
    intro st i j
    show projState (groupFrom
        ⟨gStep st.groups (tagRow j r), st.erros ++ rowError i (tagRow j r)⟩ (i + 1)
        (tagRowsFrom (j + 1) rs)) =
      groupFrom ⟨gStep (projState st).groups r, (projState st).erros ++ rowError i r⟩
        (i + 1) rs
    rw [ih ⟨gStep st.groups (tagRow j r), st.erros ++ rowError i (tagRow j r)⟩ (i + 1) (j + 1)]
    congr 1
    unfold projState
    dsimp only
    rw [gStep_proj, projRow_tagRow, rowError_tagRow]

theorem ingest_proj (rows : List (RawRow Int)) :
    projState (ingest (tagRows rows)) = ingest rows := by
  unfold ingest tagRows
  exact groupFrom_proj rows ⟨[], []⟩ 0 0

end ProjFoldLemmas

section FrameLemmas

theorem applyUpdate_frame (d : OffenderDoc) (u : UpdateData) :
    frameProj (applyUpdate d u) = frameProj d := by
  rw [applyUpdate_eq]
  rfl

theorem updateFirstById_frame (u : UpdateData) :
    ∀ db : List OffenderDoc, (updateFirstById db u).map frameProj = db.map frameProj := by
  intro db
  induction db with
  | nil => rfl
  | cons d db ih =>
    unfold updateFirstById
    by_cases hid : d.id = u.id
    · simp [hid, applyUpdate_frame]
    · simp [hid, ih]

theorem runUpdates_frame (fails : UpdateData → Option String) (us : List UpdateData) :
    ∀ (db : List OffenderDoc) (n : Nat) (es : List String),
      ((runUpdates fails db us n es).1).map frameProj = db.map frameProj := by
  induction us with
  | nil => intro db n es; rfl
  | cons u us ih =>
    intro db n es
    unfold runUpdates
    cases hf : fails u with
    | some msg => rfl
    | none =>
      rw [ih]
      exact updateFirstById_frame u db

end FrameLemmas

theorem runUpdates_abort (fails : UpdateData → Option String) (u : UpdateData)
    (vs : List UpdateData) (msg : String) (hu : fails u = some msg) :
    ∀ (us : List UpdateData) (db : List OffenderDoc) (n : Nat) (es : List String),
      (∀ w ∈ us, fails w = none) →
      runUpdates fails db (us ++ u :: vs) n es =
        (us.foldl updateFirstById db, n + us.length,
          es ++ ["Erro nas atualizações: " ++ msg]) := by
  intro us
  induction us with
  | nil =>
    intro db n es _
    show runUpdates fails db (u :: vs) n es = _
    unfold runUpdates
    rw [hu]
    simp
  | cons w us ih =>
    intro db n es hok
    rw [List.cons_append]
    unfold runUpdates
    rw [hok w (List.mem_cons_self w us)]
    rw [ih (updateFirstById db w) (n + 1) es (fun w2 hw2 => hok w2 (List.mem_cons_of_mem w hw2))]
    have hn : n + 1 + us.length = n + (us.length + 1) := by omega
    rw [hn]
    rfl

/-- C1: for every ingestion run and identity key, the accumulator built for
that key carries as start the minimum, and as end the maximum, of the
contributing valid rows' timestamps (lower bound plus attainment); and a
merge-update against a stored document replaces a stored timestamp only
when the incoming value is strictly more extreme, the result being exactly
the min (resp. max) of the stored and incoming values. -/
theorem c1_start_min_end_max :
    (∀ (rows : List (RawRow Int)) (k : String) (acc : Accum Int),
      lookupGroup (ingest rows : GroupState Int).groups k = some acc →
      ((∀ r ∈ rows, contribB k r = true → ∀ v : Int, r.dt_inicio = some v →
          acc.dt_inicio_ato_inequivoco ≤ v) ∧
       (∃ r, r ∈ rows ∧ contribB k r = true ∧
          r.dt_inicio = some acc.dt_inicio_ato_inequivoco) ∧
       (∀ r ∈ rows, contribB k r = true → ∀ v : Int, r.dt_fim = some v →
          v ≤ acc.dt_fim_ato_inequivoco) ∧
       (∃ r, r ∈ rows ∧ contribB k r = true ∧
          r.dt_fim = some acc.dt_fim_ato_inequivoco))) ∧
    (∀ (d : OffenderDoc) (u : UpdateData),
      (applyUpdate d u).dt_inicio_ato_inequivoco =
        min d.dt_inicio_ato_inequivoco u.dt_inicio ∧
      (¬ u.dt_inicio < d.dt_inicio_ato_inequivoco →
        (applyUpdate d u).dt_inicio_ato_inequivoco = d.dt_inicio_ato_inequivoco) ∧
      (applyUpdate d u).dt_fim_ato_inequivoco =
        max d.dt_fim_ato_inequivoco u.dt_fim ∧
      (¬ d.dt_fim_ato_inequivoco < u.dt_fim →
        (applyUpdate d u).dt_fim_ato_inequivoco = d.dt_fim_ato_inequivoco)) := by
  constructor
  · exact lookup_ingest_minmax
  · intro d u
    rw [applyUpdate_eq]
    refine ⟨?_, ?_, ?_, ?_⟩
    · dsimp only
      split_ifs with h <;> omega
    · intro h
      dsimp only
      rw [if_neg h]
    · dsimp only
      split_ifs with h <;> omega
    · intro h
      dsimp only
      rw [if_neg h]

/-- C1 witness: the spec scenario (A/X/SP, caça then pesca) attains its
start at a contributing row, and a concrete merge-update stores the min. -/
theorem c1_start_min_end_max_witness :
    (∃ r, r ∈ [exRowA1, exRowA2] ∧ contribB "A_X_SP" r = true ∧
       r.dt_inicio = some exAccA.dt_inicio_ato_inequivoco) ∧
    (applyUpdate exDocB exUpd1).dt_inicio_ato_inequivoco =
      min exDocB.dt_inicio_ato_inequivoco exUpd1.dt_inicio := by
  constructor
  · exact (c1_start_min_end_max.1 [exRowA1, exRowA2] "A_X_SP" exAccA (by decide)).2.1
  · exact (c1_start_min_end_max.2 exDocB exUpd1).1

/-- C2: the history list of every accumulator built by the grouping phase
has no duplicate entries, and a successful run of the endpoint preserves
the no-duplicate invariant of every stored document's history, across any
number of ingestion runs. -/
theorem c2_history_nodup :
    (∀ (rows : List (RawRow Int)) (k : String) (acc : Accum Int),
      lookupGroup (ingest rows : GroupState Int).groups k = some acc →
      acc.historico_infracoes.Nodup) ∧
    (∀ (insFail : Option String) (updFail : UpdateData → Option String)
       (db : List OffenderDoc) (f : UploadedFile)
       (resp : List (String × RVal)) (db2 : List OffenderDoc),
      (∀ d ∈ db, d.historico_infracoes.Nodup) →
      uploadCsvEndpoint insFail updFail db f = .success resp db2 →
      ∀ d ∈ db2, d.historico_infracoes.Nodup) := by
  constructor
  · exact fun rows k acc h => ingest_historico_nodup rows k acc h
  · intro insFail updFail db f resp db2 hdb hsucc
    obtain ⟨_, hdb2⟩ := uploadCsvInner_success_inv insFail updFail db f resp db2
      (uploadCsvEndpoint_success_inv insFail updFail db f resp db2 hsucc)
    rw [hdb2]
    exact runPipeline_nodup insFail updFail db f hdb

/-- C2 witness: duplicate descriptions in the input collapse to one history
entry, and a concrete run keeps every stored history duplicate-free. -/
theorem c2_history_nodup_witness :
    exAccB2.historico_infracoes.Nodup ∧
    (∀ d ∈ (uploadCsvEndpoint none (fun _ => none) exDb exFile).dbOut,
      d.historico_infracoes.Nodup) := by
  constructor
  · exact c2_history_nodup.1 [exRowB, exRowB] "B_X_S" exAccB2 (by decide)
  · exact c2_history_nodup.2 none (fun _ => none) exDb exFile
      (uploadCsvEndpoint none (fun _ => none) exDb exFile).respList
      (uploadCsvEndpoint none (fun _ => none) exDb exFile).dbOut
      (by decide) (by decide)

/-- C3: when every grouped key is present in the snapshot and every grouped
description is already stored, the run issues no insert and no update: the
summary reports 0 inserted and 0 updated and the collection is returned
unchanged. -/
theorem c3_subset_noop (insFail : Option String) (updFail : UpdateData → Option String)
    (db : List OffenderDoc) (f : UploadedFile)
    (hname : pyEndsWith f.filename ".csv" = true)
    (hcols : requiredColumns.filter (fun c => decide (c ∉ f.columns)) = [])
    (hsub : ∀ p ∈ (ingest f.rows : GroupState Int).groups, ∃ ex,
        snapLookup db p.1 = some ex ∧
        ∀ s ∈ p.2.historico_infracoes, s ∈ ex.historico_infracoes) :
    uploadCsvEndpoint insFail updFail db f =
      .success (mkResponse f.rows.length (countValid f.rows) 0 0
        (ingest f.rows : GroupState Int).erros) db := by
  have hrec : reconcile db (ingest f.rows : GroupState Int).groups = ([], []) :=
    reconcile_noop db _ hsub
  have hpipe := runPipeline_noop insFail updFail db f hrec
  unfold uploadCsvEndpoint
  rw [uploadCsvInner_success_of insFail updFail db f hname hcols, hpipe]

/-- C3 witness: re-uploading a one-row subset of what produced the stored
collection inserts nothing, updates nothing, and leaves the collection
as it was. -/
theorem c3_subset_noop_witness :
    uploadCsvEndpoint none (fun _ => none) exDb exFileSubset =
      .success (mkResponse 1 1 0 0 []) exDb := by
  refine c3_subset_noop none (fun _ => none) exDb exFileSubset (by decide) (by decide) ?_
  intro p hp
  have hg : (ingest exFileSubset.rows : GroupState Int).groups =
      [("B_X_S",
        { nome_infrator := "B", infracao_area := "", municipio := "X", estado := "S",
          des_local_infracao := "", historico_infracoes := ["d1"],
          dt_inicio_ato_inequivoco := 0, dt_fim_ato_inequivoco := 10,
          total_infracoes := 1 })] := by decide
  rw [hg] at hp
  rcases List.mem_singleton.mp hp with hpe
  subst hpe
  exact ⟨exDocB, by decide, by decide⟩

/-- C4: the whole-file rejections exist and no write is issued (the
collection comes back unchanged), but the HTTPException(400) raised inside
the outer try block is caught by the blanket `except Exception` handler and
re-raised as a 500, so the client receives a server error, not the 4xx the
explicit `status_code=400` intends: evaluation at a non-`.csv` filename and
at a table missing the required columns. -/
theorem c4_wholefile_rejected_500 :
    uploadCsvEndpoint none (fun _ => none) exDb exFileTxt =
      .httpError 500 "Erro ao processar arquivo: 400: Arquivo deve ser um CSV" exDb ∧
    uploadCsvEndpoint none (fun _ => none) exDb exFileNoCols =
      .httpError 500 ("Erro ao processar arquivo: 400: Colunas obrigatórias não encontradas no CSV: "
        ++ toString requiredColumns) exDb := by
  exact ⟨by decide, by decide⟩

/-- C5 counterexample: with two pending merge-updates where the call for the
first one raises, the loop stops: zero updates are counted, one batch-level
message is appended, and the second document is left untouched even though
applying its update would have changed it — the remaining records are NOT
attempted. -/
theorem c5_counterexample :
    runUpdates exFails [exDoc1, exDoc2] [exUpd1, exUpd2] 0 [] =
      ([exDoc1, exDoc2], 0, ["Erro nas atualizações: boom"]) ∧
    updateFirstById [exDoc1, exDoc2] exUpd2 ≠ [exDoc1, exDoc2] := by
  exact ⟨by decide, by decide⟩

/-- C5 (amended): the `try/except` wraps the whole update loop, so the first
failing update call logs one batch-level message and aborts the loop:
updates before the failure stay applied and counted, updates after it are
not attempted. -/
theorem c5_update_loop_aborts (fails : UpdateData → Option String)
    (db : List OffenderDoc) (us : List UpdateData) (u : UpdateData)
    (vs : List UpdateData) (es : List String) (msg : String)
    (hok : ∀ w ∈ us, fails w = none) (hu : fails u = some msg) :
    runUpdates fails db (us ++ u :: vs) 0 es =
      (us.foldl updateFirstById db, us.length,
        es ++ ["Erro nas atualizações: " ++ msg]) := by
  have h := runUpdates_abort fails u vs msg hu us db 0 es hok
  simpa using h

/-- C5 witness: one successful update followed by a failing one yields count
1 and the batch-level message. -/
theorem c5_update_loop_aborts_witness :
    runUpdates exFails [exDoc1, exDoc2] ([exUpd2] ++ exUpd1 :: []) 0 [] =
      ([exUpd2].foldl updateFirstById [exDoc1, exDoc2], 1,
        [] ++ ["Erro nas atualizações: " ++ "boom"]) := by
  exact c5_update_loop_aborts exFails [exDoc1, exDoc2] [exUpd2] exUpd1 [] [] "boom"
    (by decide) (by decide)

/-- C6 counterexample: a row whose offender name is blank AND whose dates
fail to parse is dropped by the date filter before the name check, so no
row-level error message is recorded for it, contradicting the claim that
every blank-name input row is recorded under row-level errors. -/
theorem c6_counterexample :
    getSafeValue exRowInvalid.nome = "" ∧
    (ingest [exRowInvalid] : GroupState Int).erros = [] ∧
    (ingest [exRowInvalid] : GroupState Int).groups = [] := by
  exact ⟨by decide, by decide, by decide⟩

/-- C6 (amended): every row with both dates parsed whose offender name is
blank after extraction contributes to no group (dropping it leaves the
groups unchanged) and is recorded with a 1-based line reference. -/
theorem c6_blank_name_row (pre post : List (RawRow Int)) (r : RawRow Int)
    (di df : Int) (hdi : r.dt_inicio = some di) (hdf : r.dt_fim = some df)
    (hb : getSafeValue r.nome = "") :
    ("Linha " ++ toString (pre.length + 1) ++ ": Nome do infrator está vazio ou ausente")
      ∈ (ingest (pre ++ r :: post) : GroupState Int).erros ∧
    (ingest (pre ++ r :: post) : GroupState Int).groups =
      (ingest (pre ++ post) : GroupState Int).groups := by
  constructor
  · rw [ingest, groupFrom_erros, erroList_append]
    have h1 : rowError pre.length r =
        ["Linha " ++ toString (pre.length + 1) ++ ": Nome do infrator está vazio ou ausente"] := by
      unfold rowError
      rw [hdi, hdf]
      dsimp only
      rw [if_pos hb]
    simp [erroList, h1]
  · rw [ingest, ingest, groupFrom_groups, groupFrom_groups,
      List.foldl_append, List.foldl_append, List.foldl_cons]
    have h2 : gStep ((ingest pre : GroupState Int).groups) r =
        (ingest pre : GroupState Int).groups := by
      unfold gStep
      rw [hdi, hdf]
      dsimp only
      rw [if_pos hb]
    rw [ingest, groupFrom_groups] at h2
    rw [h2]

/-- C6 witness: a blank-name valid-date row at 0-based index 1 is reported
as line 2 and adds nothing to the groups. -/
theorem c6_blank_name_row_witness :
    ("Linha " ++ toString (1 + 1) ++ ": Nome do infrator está vazio ou ausente")
      ∈ (ingest ([exRowB] ++ exRowBlank :: []) : GroupState Int).erros ∧
    (ingest ([exRowB] ++ exRowBlank :: []) : GroupState Int).groups =
      (ingest ([exRowB] ++ []) : GroupState Int).groups := by
  exact c6_blank_name_row [exRowB] [] exRowBlank 1 2 rfl rfl rfl

/-- C7: grouping is a pure function of the row list — instrumenting every
timestamp with its row index changes nothing observable (the projection of
the tagged run equals the plain run) — and on a merge whose incoming
timestamp merely equals the stored value, the stored timestamp (with the
tag of the earlier-merged row) is kept: an equal later value never replaces
it. -/
theorem c7_deterministic_first_writer :
    (∀ rows : List (RawRow Int), projState (ingest (tagRows rows)) = ingest rows) ∧
    (∀ (a : Accum TS) (nova : String) (di df : TS),
      di.val = a.dt_inicio_ato_inequivoco.val →
      (mergeRow a nova di df).dt_inicio_ato_inequivoco = a.dt_inicio_ato_inequivoco) ∧
    (∀ (a : Accum TS) (nova : String) (di df : TS),
      df.val = a.dt_fim_ato_inequivoco.val →
      (mergeRow a nova di df).dt_fim_ato_inequivoco = a.dt_fim_ato_inequivoco) := by
  refine ⟨ingest_proj, ?_, ?_⟩
  · intro a nova di df h
    rw [mergeRow_eq]
    dsimp only
    rw [if_neg]
    intro hlt
    rw [TS_lt_iff] at hlt
    omega
  · intro a nova di df h
    rw [mergeRow_eq]
    dsimp only
    rw [if_neg]
    intro hlt
    rw [TS_lt_iff] at hlt
    omega

/-- C7 witness: the tagged run of the spec scenario projects to the plain
run, and a later row with an equal timestamp (tag 7) does not displace the
stored timestamp of the first-merged row (tag 0). -/
theorem c7_deterministic_first_writer_witness :
    projState (ingest (tagRows [exRowA1, exRowA2])) = ingest [exRowA1, exRowA2] ∧
    (mergeRow exAccTS "x" ⟨5, 7⟩ ⟨9, 7⟩).dt_inicio_ato_inequivoco = TS.mk 5 0 := by
  exact ⟨c7_deterministic_first_writer.1 [exRowA1, exRowA2],
    c7_deterministic_first_writer.2.1 exAccTS "x" ⟨5, 7⟩ ⟨9, 7⟩ rfl⟩

/-- C8 counterexample: a run identifying 3 groups returns a non-empty
response none of whose values is the number 3 — the summary carries no
groups-identified count (it is only logged, never returned). -/
theorem c8_counterexample :
    (ingest exFile.rows : GroupState Int).groups.length = 3 ∧
    (uploadCsvEndpoint none (fun _ => none) exDb exFile).respList ≠ [] ∧
    (∀ kv ∈ (uploadCsvEndpoint none (fun _ => none) exDb exFile).respList,
      kv.2 ≠ RVal.n 3) := by
  exact ⟨by decide, by decide, by decide⟩

/-- C8 (amended): every successful response carries rows read, valid rows,
rows excluded for invalid dates, an inserted count, an updated count, a
total row-level error count and the first at-most-10 error messages — but
no groups-identified count. -/
theorem c8_response_fields (insFail : Option String) (updFail : UpdateData → Option String)
    (db : List OffenderDoc) (f : UploadedFile) (resp : List (String × RVal))
    (db2 : List OffenderDoc)
    (h : uploadCsvEndpoint insFail updFail db f = .success resp db2) :
    ("total_registros", RVal.n f.rows.length) ∈ resp ∧
    ("registros_validos", RVal.n (countValid f.rows)) ∈ resp ∧
    ("registros_com_datas_invalidas", RVal.n (f.rows.length - countValid f.rows)) ∈ resp ∧
    (∃ n, ("infratores_inseridos", RVal.n n) ∈ resp) ∧
    (∃ n, ("infratores_atualizados", RVal.n n) ∈ resp) ∧
    (∃ es : List String, ("registros_com_erro", RVal.n es.length) ∈ resp ∧
      ("erros", RVal.ls (es.take 10)) ∈ resp) ∧
    (∀ e, ("erros", RVal.ls e) ∈ resp → e.length ≤ 10) := by
  obtain ⟨h1, _⟩ := uploadCsvInner_success_inv insFail updFail db f resp db2
    (uploadCsvEndpoint_success_inv insFail updFail db f resp db2 h)
  obtain ⟨ins2, atual2, erros2, hshape⟩ := runPipeline_resp insFail updFail db f
  rw [hshape] at h1
  subst h1
  refine ⟨?_, ?_, ?_, ⟨ins2, ?_⟩, ⟨atual2, ?_⟩, ⟨erros2, ?_, ?_⟩, ?_⟩
  · simp [mkResponse]
  · simp [mkResponse]
  · simp [mkResponse]
  · simp [mkResponse]
  · simp [mkResponse]
  · simp [mkResponse]
  · simp [mkResponse]
  · intro e he
    simp only [mkResponse, List.mem_cons, List.not_mem_nil, or_false,
      Prod.mk.injEq] at he
    rcases he with ⟨h1, h2⟩ | ⟨h1, h2⟩ | ⟨h1, h2⟩ | ⟨h1, h2⟩ | ⟨h1, h2⟩ | ⟨h1, h2⟩ |
      ⟨h1, h2⟩ | ⟨h1, h2⟩
    · exact absurd h1 (by decide)
    · exact absurd h1 (by decide)
    · exact absurd h1 (by decide)
    · exact absurd h1 (by decide)
    · exact absurd h1 (by decide)
    · exact absurd h1 (by decide)
    · exact absurd h1 (by decide)
    · injection h2 with h3
      rw [h3, List.length_take]
      omega

/-- C8 witness: the concrete run's response carries the total row count and
its error list is capped at 10. -/
theorem c8_response_fields_witness :
    ("total_registros", RVal.n 5) ∈
      (uploadCsvEndpoint none (fun _ => none) exDb exFile).respList ∧
    (∀ e, ("erros", RVal.ls e) ∈
        (uploadCsvEndpoint none (fun _ => none) exDb exFile).respList →
      e.length ≤ 10) := by
  have h := c8_response_fields none (fun _ => none) exDb exFile
    (uploadCsvEndpoint none (fun _ => none) exDb exFile).respList
    (uploadCsvEndpoint none (fun _ => none) exDb exFile).dbOut
    (by decide)
  exact ⟨h.1, h.2.2.2.2.2.2⟩

/-- C9 counterexample: the non-empty cell "NaN" is mapped to the default
empty string by `get_safe_value` instead of being carried through as its
stripped value — the empty string is not the only value treated as
missing. -/
theorem c9_counterexample :
    getSafeValue (some "NaN") = "" ∧ ("NaN" : String) ≠ "" ∧
    pyStrip "NaN" = "NaN" ∧ getSafeValue (some "NaN") ≠ pyStrip "NaN" := by
  exact ⟨by decide, by decide, by decide, by decide⟩

/-- C9 (amended): field extraction treats a missing/NaN cell AND any cell
whose lowercased content is exactly the literal "nan" as missing
(substituted by the empty-string default); every other cell is carried
through as its stripped value. -/
theorem c9_missing_values :
    getSafeValue none = "" ∧
    (∀ v : String, pyLower v = "nan" → getSafeValue (some v) = "") ∧
    (∀ v : String, pyLower v ≠ "nan" → getSafeValue (some v) = pyStrip v) := by
  refine ⟨rfl, ?_, ?_⟩
  · intro v hv
    unfold getSafeValue
    dsimp only
    rw [if_pos hv]
  · intro v hv
    unfold getSafeValue
    dsimp only
    rw [if_neg hv]

/-- C9 witness: a padded ordinary value is carried through stripped. -/
theorem c9_missing_values_witness :
    getSafeValue (some " Foo ") = pyStrip " Foo " :=
  c9_missing_values.2.2 " Foo " (by decide)

/-- C10: a merge-update changes only the history list and the two
timestamps: id, offender name, infraction area, municipality, state and
location description survive one update unchanged, and the whole update
loop preserves them (and the document order) for every stored document. -/
theorem c10_update_frame :
    (∀ (d : OffenderDoc) (u : UpdateData),
      (applyUpdate d u).id = d.id ∧
      (applyUpdate d u).nome_infrator = d.nome_infrator ∧
      (applyUpdate d u).infracao_area = d.infracao_area ∧
      (applyUpdate d u).municipio = d.municipio ∧
      (applyUpdate d u).estado = d.estado ∧
      (applyUpdate d u).des_local_infracao = d.des_local_infracao) ∧
    (∀ (fails : UpdateData → Option String) (db : List OffenderDoc)
        (us : List UpdateData) (n : Nat) (es : List String),
      ((runUpdates fails db us n es).1).map frameProj = db.map frameProj) := by
  constructor
  · intro d u
    rw [applyUpdate_eq]
    exact ⟨rfl, rfl, rfl, rfl, rfl, rfl⟩
  · intro fails db us n es
    exact runUpdates_frame fails us db n es
